import Mathlib

/-!
Verification of the circuit-compilation dashboard
(`src/circuits/verify_header/dashboard.py`).

Python strings are modelled as `List Char`; a Python `dict` with string keys
and values is modelled as an insertion-ordered association list (`Dict`); the
backing status file is `Option Str` (`none` = missing file, `some s` = the
file's bytes).  Fallible Python operations (`int(...)`, `float(...)` raising
`ValueError`) are modelled with `Option`.
-/

set_option autoImplicit false

namespace Dashboard

/-- Python strings, modelled as lists of characters. -/
abbrev Str := List Char

/-- A Python string dict: insertion-ordered association list.  Key uniqueness
is not part of the type; it is proved as an invariant of `read_status`. -/
abbrev Dict := List (Str × Str)

/-- The ASCII whitespace characters recognised by Python's `str.strip()`,
`str.split()` and the regex class `\s` (non-ASCII unicode whitespace is not
modelled; no status or log line in the claims uses it). -/
def isPyWS (c : Char) : Bool :=
  c = ' ' || c = '\t' || c = '\n' || c = '\r' || c = '\x0b' || c = '\x0c'

/-- Python `str.strip()`: drop leading and trailing whitespace. -/
def pyStrip (s : Str) : Str :=
  ((s.dropWhile isPyWS).reverse.dropWhile isPyWS).reverse

/-- Python `str.lower()` (ASCII; the classifier's patterns are all ASCII). -/
def pyLower (s : Str) : Str :=
  s.map Char.toLower

/-- Python's substring operator `needle in hay`. -/
def pyContains (needle : Str) : Str → Bool
  | [] => needle.isEmpty
  | c :: rest => needle.isPrefixOf (c :: rest) || pyContains needle rest

/-- Python `str.split()` with no argument: split on whitespace runs,
discarding empty pieces. -/
def pySplit (s : Str) : List Str :=
  (List.splitOnP isPyWS s).filter (fun w => !w.isEmpty)

/-- Python `str.startswith(p)`. -/
def pyStartsWith (p : Str) (s : Str) : Bool :=
  p.isPrefixOf s

/-- The decimal digits of `n`, most significant first; `fuel` bounds the
recursion depth (any `fuel > n` is enough). -/
def natToDigitsAux : Nat → Nat → List Char
  | 0, _ => []
  | fuel + 1, n =>
    if n < 10 then [Nat.digitChar n]
    else natToDigitsAux fuel (n / 10) ++ [Nat.digitChar (n % 10)]

/-- Decimal digits of a natural number, as `str(n)` renders them. -/
def natToDigits (n : Nat) : List Char :=
  natToDigitsAux (n + 1) n

/-- Python `str(i)` for an `int`. -/
def intToStr (i : Int) : Str :=
  if i < 0 then '-' :: natToDigits i.natAbs else natToDigits i.natAbs

/-- The numeric value of a decimal digit character. -/
def digitVal (c : Char) : Nat :=
  c.toNat - '0'.toNat

/-- The natural number denoted by a string of decimal digits. -/
def natOfDigits (ds : List Char) : Nat :=
  ds.foldl (fun a c => a * 10 + digitVal c) 0

/-- A non-empty all-digit string, as a number; `none` otherwise. -/
def pyParseDigits (ds : Str) : Option Nat :=
  if !ds.isEmpty && ds.all Char.isDigit then some (natOfDigits ds) else none

/-- An optional sign followed by a non-empty digit string, as an integer. -/
def signedDigits : Str → Option Int
  | [] => none
  | c :: rest =>
    if c = '-' then (pyParseDigits rest).map (fun n => -(n : Int))
    else if c = '+' then (pyParseDigits rest).map (fun n => (n : Int))
    else (pyParseDigits (c :: rest)).map (fun n => (n : Int))

/-- Python `int(s)` in base 10: strip whitespace, optional sign, one or more
decimal digits; anything else raises `ValueError` (`none`).  (Underscore
digit grouping, accepted since Python 3.6, is not modelled; no claim uses
it.) -/
def pyParseInt (s : Str) : Option Int :=
  signedDigits (pyStrip s)

/-- The exponent part of a Python float literal (what follows `e`/`E`):
optional sign, one or more digits. -/
def pyParseExpPart (s : Str) : Option Int :=
  signedDigits s

/-- The rational `m * 10^e / 10^flen`, built with integer arithmetic and one
`mkRat` so it evaluates inside the kernel. -/
def decimalValue (m : Int) (flen : Nat) (e : Int) : ℚ :=
  let shift : Int := e - (flen : Int)
  if 0 ≤ shift then mkRat (m * (10 : Int) ^ shift.toNat) 1
  else mkRat m ((10 : Nat) ^ (-shift).toNat)

/-- The unsigned body of a Python float literal:
`digits [. digits] [exp]` or `. digits [exp]`. -/
def pyParseFloatBody (s : Str) : Option ℚ :=
  let ip := s.takeWhile Char.isDigit
  let rest := s.dropWhile Char.isDigit
  match rest with
  | [] => (pyParseDigits ip).map (fun m => decimalValue m 0 0)
  | c :: rest2 =>
    if c = '.' then
      let fp := rest2.takeWhile Char.isDigit
      let rest3 := rest2.dropWhile Char.isDigit
      if ip.isEmpty && fp.isEmpty then none
      else
        match rest3 with
        | [] => some (decimalValue (natOfDigits (ip ++ fp)) fp.length 0)
        | c2 :: rest4 =>
          if c2 = 'e' ∨ c2 = 'E' then
            (pyParseExpPart rest4).map (decimalValue (natOfDigits (ip ++ fp)) fp.length)
          else none
    else if c = 'e' ∨ c = 'E' then
      if ip.isEmpty then none
      else (pyParseExpPart rest2).map (decimalValue (natOfDigits ip) 0)
    else none

/-- Python `float(s)` for finite decimal literals: strip whitespace, optional
sign, then a decimal/scientific body; anything else raises `ValueError`
(`none`).  (`inf`/`nan` and underscore grouping are not modelled; no claim
uses them.) -/
def pyParseFloat (s : Str) : Option ℚ :=
  match pyStrip s with
  | [] => none
  | c :: rest =>
    if c = '-' then (pyParseFloatBody rest).map (fun q => -q)
    else if c = '+' then pyParseFloatBody rest
    else pyParseFloatBody (c :: rest)

/-- `round(10 * x)` with ties to even, computed on the numerator and
denominator with integer arithmetic only.  This is the rounding CPython's
`f"\x7bx:.1f\x7d"` performs (on the binary double; the binary/decimal gap is
not modelled — the claims only exercise one-decimal values, where the two
agree). -/
def roundTenTiesEven (x : ℚ) : ℤ :=
  let n := 10 * x.num
  let d := (x.den : ℤ)
  let f := Int.fdiv n d
  let r2 := 2 * (n - f * d)
  if r2 < d then f else if d < r2 then f + 1 else if f % 2 = 0 then f else f + 1

/-- Python `f"\x7bx:.1f\x7d"`: the value rounded to one decimal place, with a
sign, the integer digits, a point and one fractional digit. -/
def formatF1 (x : ℚ) : Str :=
  let n := roundTenTiesEven x
  (if n < 0 then ['-'] else [])
    ++ natToDigits (n.natAbs / 10) ++ '.' :: [Nat.digitChar (n.natAbs % 10)]

/-- Python `d[k] = v` on an insertion-ordered dict: replace the value of an
existing key in place, otherwise append the new pair. -/
def dictInsert : Dict → Str → Str → Dict
  | [], k, v => [(k, v)]
  | (k', v') :: d, k, v =>
    if k' = k then (k', v) :: d else (k', v') :: dictInsert d k v

/-- Lookup in a `Dict` (first matching key). -/
def dictGet? : Dict → Str → Option Str
  | [], _ => none
  | (k', v') :: d, k => if k' = k then some v' else dictGet? d k

/-- Python `d.get(k, dflt)`. -/
def pyGetD (d : Dict) (k dflt : Str) : Str :=
  (dictGet? d k).getD dflt

/-- Python `line.split('=', 1)` restricted to the split case:
`some (before, after)` at the first `'='`, `none` when the line has no `'='`
(the `'=' in line` test and the split of `read_status` combined). -/
def splitFirstEq : Str → Option (Str × Str)
  | [] => none
  | c :: rest =>
    if c = '=' then some ([], rest)
    else (splitFirstEq rest).map (fun p => (c :: p.1, p.2))

/-- The lines of a text file as Python's `for line in f` yields them, with
the terminating newline already removed (`read_status` strips each line
anyway, so keeping the `'\n'` would be unobservable). -/
def splitLines : Str → List Str
  | [] => []
  | c :: cs =>
    if c = '\n' then [] :: splitLines cs
    else
      match splitLines cs with
      | [] => [[c]]
      | l :: ls => (c :: l) :: ls

/-- A text file made of newline-terminated lines. -/
def linesToFile (ls : List Str) : Str :=
  (ls.map (fun l => l ++ ['\n'])).flatten

/-- One iteration of the `read_status` loop (dashboard.py lines 181-185):
strip the line; if it contains `'='`, split at the first `'='` and store the
pair, otherwise skip the line. -/
def parseStatusLine (d : Dict) (line : Str) : Dict :=
  match splitFirstEq (pyStrip line) with
  | some (k, v) => dictInsert d k v
  | none => d

/-- `read_status` (dashboard.py lines 175-188): a missing file yields an
empty record; otherwise every `key=value` line is parsed, lines with no `'='`
are skipped.  (The `except Exception: pass` around the loop absorbs I/O
errors; with the file contents given, the loop itself cannot raise.) -/
def read_status (file : Option Str) : Dict :=
  match file with
  | none => []
  | some s => (splitLines s).foldl parseStatusLine []

/-- The serialized form of one entry, `f"\x7bkey\x7d=\x7bvalue\x7d"`. -/
def statusLine (kv : Str × Str) : Str :=
  kv.1 ++ '=' :: kv.2

/-- `write_status` (dashboard.py lines 191-198): one `key=value` line per
entry, in insertion order, each terminated by `'\n'`. -/
def write_status (d : Dict) : Str :=
  linesToFile (d.map statusLine)

/-- `update_status` (dashboard.py lines 201-205): read the backing file, set
one key, write the whole record back.  The result is the new file. -/
def update_status (file : Option Str) (k v : Str) : Str :=
  write_status (dictInsert (read_status file) k v)

/-- `init_status` (dashboard.py lines 208-224).  `now` stands for
`int(time.time())` and `logFile` for `SCRIPT_DIR / 'logs' / 'current.log'`,
both environment inputs. -/
def init_status (mode : Str) (now : Int) (totalParts : Int) (logFile : Str) : Dict :=
  [ ("MODE".toList, mode),
    ("STAGE".toList, "initializing".toList),
    ("PART".toList, []),
    ("STEP".toList, []),
    ("START_TIME".toList, intToStr now),
    ("TOTAL_PARTS".toList, intToStr totalParts),
    ("COMPLETED_PARTS".toList, "0".toList),
    ("CURRENT_CONSTRAINTS".toList, "0".toList),
    ("PEAK_MEMORY".toList, "0".toList),
    ("ERRORS".toList, "0".toList),
    ("WARNINGS".toList, "0".toList),
    ("LOG_FILE".toList, logFile) ]

/-- Python `'c' * n` string repetition: empty for `n ≤ 0`. -/
def pyRepeat (c : Char) (n : Int) : Str :=
  List.replicate n.toNat c

/-- Python `f"\x7bi:3d\x7d"`: decimal rendering right-justified to width 3. -/
def pyFormatD3 (i : Int) : Str :=
  let s := intToStr i
  List.replicate (3 - s.length) ' ' ++ s

/-- The `percent` computed by `draw_progress_bar` (dashboard.py line 235),
after the zero guard replaced `total`: Python `//` is floor division. -/
def progressPercent (current total : Int) : Int :=
  Int.fdiv (current * 100) total

/-- The `filled` cell count of `draw_progress_bar` (dashboard.py line 236). -/
def progressFilled (current total width : Int) : Int :=
  Int.fdiv (current * width) total

/-- `draw_progress_bar` (dashboard.py lines 231-239): substitute 1 for a zero
total, fill `current*width//total` cells, pad to `width`, and append the
percentage. -/
def draw_progress_bar (current total : Int) (width : Int := 40) : Str :=
  let total := if total = 0 then 1 else total
  let percent := progressPercent current total
  let filled := progressFilled current total width
  let empty := width - filled
  let bar := pyRepeat '█' filled ++ pyRepeat '░' empty
  '[' :: bar ++ ']' :: ' ' :: pyFormatD3 percent ++ ['%']

/-- The status-record side of `draw_system_metrics` (dashboard.py lines
296-301): parse the stored `PEAK_MEMORY` with `float()` (an unparseable value
raises `ValueError`, aborting the draw — `none`); when the sampled memory
exceeds it, store the sample formatted to one decimal.  Returns the peak the
panel then displays and the updated record.  The rendered ANSI text and the
cpu/swap/load sampling (which never touch the record) are not modelled. -/
def draw_system_metrics (mem_used : ℚ) (st : Dict) : Option (ℚ × Dict) :=
  (pyParseFloat (pyGetD st "PEAK_MEMORY".toList "0".toList)).map fun peak_mem =>
    if peak_mem < mem_used then
      (mem_used, dictInsert st "PEAK_MEMORY".toList (formatF1 mem_used))
    else (peak_mem, st)

/-- The fallible field parsing of `draw_compilation_progress` (dashboard.py
lines 343-345): `int()` on `TOTAL_PARTS` (default `'8'`), `COMPLETED_PARTS`
(default `'0'`) and `START_TIME` (default `'0'`); an unparseable stored value
raises `ValueError`, aborting the draw (`none`).  Returns
`(total_parts, completed_parts, start_time)`. -/
def draw_compilation_progress (st : Dict) : Option (Int × Int × Int) :=
  (pyParseInt (pyGetD st "TOTAL_PARTS".toList "8".toList)).bind fun total_parts =>
    (pyParseInt (pyGetD st "COMPLETED_PARTS".toList "0".toList)).bind fun completed_parts =>
      (pyParseInt (pyGetD st "START_TIME".toList "0".toList)).map fun start_time =>
        (total_parts, completed_parts, start_time)

/-- The constraints row of `draw_compilation_progress` (dashboard.py lines
393-398): shown only when `CURRENT_CONSTRAINTS` is non-empty, not `'0'` and
parses as an `int`; the `try/except ValueError` means an unparseable value
skips the row instead of aborting.  Returns the integer displayed, if any. -/
def constraintsRow (st : Dict) : Option Int :=
  let constraints := pyGetD st "CURRENT_CONSTRAINTS".toList "0".toList
  if !constraints.isEmpty && constraints ≠ "0".toList then
    match pyParseInt constraints with
    | some n => some n
    | none => none
  else none

/-- The token stored as `PART` (dashboard.py lines 587-590): the first
whitespace-delimited word starting with `part` or `Part`. -/
def firstPartToken (line : Str) : Option Str :=
  (pySplit line).find? fun w =>
    pyStartsWith "part".toList w || pyStartsWith "Part".toList w

/-- `re.search(r'(\d+)\s*constraints', line)`, group 1: the leftmost maximal
digit run followed by optional whitespace and the literal `constraints`.
(Taking fewer digits than the maximal run can never make the rest match,
because `\s*constraints` cannot start with a digit, so this backtracking-free
scan agrees with the regex engine.) -/
def findConstraints : Str → Option Str
  | [] => none
  | c :: rest =>
    if c.isDigit then
      let ds := c :: rest.takeWhile Char.isDigit
      let after := (rest.dropWhile Char.isDigit).dropWhile isPyWS
      if pyStartsWith "constraints".toList after then some ds
      else findConstraints rest
    else findConstraints rest

/-- Classifier rule 1 (dashboard.py lines 585-590): `'Compiling Part' in
line or 'part' in line.lower()` sets `STAGE=compiling` and stores the first
word starting with `part`/`Part` as `PART`. -/
def rule_part (st : Dict) (line lower : Str) : Dict :=
  if pyContains "Compiling Part".toList line || pyContains "part".toList lower then
    let st := dictInsert st "STAGE".toList "compiling".toList
    match firstPartToken line with
    | some w => dictInsert st "PART".toList w
    | none => st
  else st

/-- Classifier rule 2 (dashboard.py lines 592-595): on `'constraints' in
line.lower()`, store the regex group as `CURRENT_CONSTRAINTS` if the regex
matches. -/
def rule_constraints (st : Dict) (line lower : Str) : Dict :=
  if pyContains "constraints".toList lower then
    match findConstraints line with
    | some ds => dictInsert st "CURRENT_CONSTRAINTS".toList ds
    | none => st
  else st

/-- Classifier rule 3 (dashboard.py lines 597-600): on `'compiled' in
line.lower() or 'Compiled' in line`, re-read `COMPLETED_PARTS` (default
`'0'`), parse it with `int()` — an unparseable value raises, killing the
reader (`none`) — and store the successor. -/
def rule_compiled (st : Dict) (line lower : Str) : Option Dict :=
  if pyContains "compiled".toList lower || pyContains "Compiled".toList line then
    (pyParseInt (pyGetD st "COMPLETED_PARTS".toList "0".toList)).map fun completed =>
      dictInsert st "COMPLETED_PARTS".toList (intToStr (completed + 1))
  else some st

/-- Classifier rule 4 (dashboard.py lines 602-604): `'Generating witness' in
line`. -/
def rule_witness (st : Dict) (line : Str) : Dict :=
  if pyContains "Generating witness".toList line then
    dictInsert (dictInsert st "STAGE".toList "witness".toList)
      "STEP".toList "generating witness".toList
  else st

/-- Classifier rule 5 (dashboard.py lines 606-608): `'zkey' in line.lower()`. -/
def rule_zkey (st : Dict) (lower : Str) : Dict :=
  if pyContains "zkey".toList lower then
    dictInsert (dictInsert st "STAGE".toList "trusted_setup".toList)
      "STEP".toList "generating zkey".toList
  else st

/-- Classifier rule 6 (dashboard.py lines 610-612): `'proof' in line.lower()`. -/
def rule_proof (st : Dict) (lower : Str) : Dict :=
  if pyContains "proof".toList lower then
    dictInsert (dictInsert st "STAGE".toList "proving".toList)
      "STEP".toList "generating proof".toList
  else st

/-- Classifier rule 7 (dashboard.py lines 614-615): `'Done' in line or
'success' in line.lower()` — note the `Done` test is case-sensitive. -/
def rule_done (st : Dict) (line lower : Str) : Dict :=
  if pyContains "Done".toList line || pyContains "success".toList lower then
    dictInsert st "STAGE".toList "complete".toList
  else st

/-- One iteration of `read_output` (dashboard.py lines 580-615): the seven
classifier rules applied in source order to one line of child output.  The
updates go through `update_status`, i.e. through the backing file; the
record-level composition used here agrees with the file-level one because
`read_status ∘ write_status` is the identity on the well-formed records the
rules produce (`read_write_roundtrip` below). -/
def read_output_line (st : Dict) (line : Str) : Option Dict :=
  let lower := pyLower line
  let st := rule_part st line lower
  let st := rule_constraints st line lower
  (rule_compiled st line lower).map fun st =>
    rule_done (rule_proof (rule_zkey (rule_witness st line) lower) lower) line lower

/-- `read_output`'s loop over a list of output lines. -/
def read_output_lines (st : Dict) : List Str → Option Dict
  | [] => some st
  | line :: rest => (read_output_line st line).bind fun st' => read_output_lines st' rest

/-- The renderer's peak-memory tracking over a list of sampled memory values:
`draw_system_metrics` once per sample, threading the status record. -/
def renderPeakSteps (st : Dict) : List ℚ → Option Dict
  | [] => some st
  | m :: ms => (draw_system_metrics m st).bind fun r => renderPeakSteps r.2 ms

/-! ### Lemmas about `pyStrip` -/

theorem dropWhile_eq_self_of_head (p : Char → Bool) (l : Str)
    (h : ∀ c, l.head? = some c → p c = false) : l.dropWhile p = l := by
  cases l with
  | nil => rfl
  | cons c t => simp [List.dropWhile_cons, h c rfl]

theorem head?_dropWhile_false (p : Char → Bool) (l : Str) :
    ∀ c, (l.dropWhile p).head? = some c → p c = false := by
  induction l with
  | nil => intro c h; simp at h
  | cons a t ih =>
    intro c h
    by_cases hp : p a = true
    · rw [List.dropWhile_cons, if_pos hp] at h
      exact ih c h
    · rw [List.dropWhile_cons, if_neg hp] at h
      simp only [List.head?_cons, Option.some.injEq] at h
      rw [← h]
      exact Bool.eq_false_iff.mpr hp

theorem dropWhile_append_decomp (p : Char → Bool) (l : Str) :
    l = l.takeWhile p ++ l.dropWhile p :=
  (List.takeWhile_append_dropWhile p l).symm

theorem getLast?_dropWhile (p : Char → Bool) (l : Str)
    (h : l.dropWhile p ≠ []) : (l.dropWhile p).getLast? = l.getLast? := by
  conv_rhs => rw [dropWhile_append_decomp p l]
  rw [List.getLast?_append_of_ne_nil _ h]

theorem mem_pyStrip (l : Str) {c : Char} (h : c ∈ pyStrip l) : c ∈ l := by
  unfold pyStrip at h
  rw [List.mem_reverse] at h
  have h1 := (List.dropWhile_sublist _).subset h
  rw [List.mem_reverse] at h1
  exact (List.dropWhile_sublist _).subset h1

theorem head?_pyStrip_false (l : Str) :
    ∀ c, (pyStrip l).head? = some c → isPyWS c = false := by
  intro c h
  unfold pyStrip at h
  rw [List.head?_reverse] at h
  have hne : (l.dropWhile isPyWS).reverse.dropWhile isPyWS ≠ [] := by
    intro hnil
    rw [hnil] at h
    simp at h
  rw [getLast?_dropWhile _ _ hne, List.getLast?_reverse] at h
  exact head?_dropWhile_false _ _ c h

theorem getLast?_pyStrip_false (l : Str) :
    ∀ c, (pyStrip l).getLast? = some c → isPyWS c = false := by
  intro c h
  unfold pyStrip at h
  rw [List.getLast?_reverse] at h
  exact head?_dropWhile_false _ _ c h

theorem pyStrip_eq_self (l : Str)
    (h1 : ∀ c, l.head? = some c → isPyWS c = false)
    (h2 : ∀ c, l.getLast? = some c → isPyWS c = false) : pyStrip l = l := by
  unfold pyStrip
  rw [dropWhile_eq_self_of_head _ _ h1]
  rw [dropWhile_eq_self_of_head _ _ (fun c hc => h2 c (by rwa [List.head?_reverse] at hc))]
  exact List.reverse_reverse l

theorem pyStrip_idem (l : Str) : pyStrip (pyStrip l) = pyStrip l :=
  pyStrip_eq_self _ (head?_pyStrip_false l) (getLast?_pyStrip_false l)

/-! ### Lemmas about decimal digits -/

theorem digitVal_digitChar (r : Nat) (h : r < 10) : digitVal (Nat.digitChar r) = r := by
  interval_cases r <;> rfl

theorem isDigit_digitChar (r : Nat) (h : r < 10) : (Nat.digitChar r).isDigit = true := by
  interval_cases r <;> rfl

theorem natOfDigits_append_digit (xs : List Char) (c : Char) :
    natOfDigits (xs ++ [c]) = 10 * natOfDigits xs + digitVal c := by
  unfold natOfDigits
  rw [List.foldl_append]
  simp [Nat.mul_comm]

theorem natToDigitsAux_spec (fuel : Nat) : ∀ n : Nat, n < fuel →
    natOfDigits (natToDigitsAux fuel n) = n
    ∧ natToDigitsAux fuel n ≠ []
    ∧ ∀ c ∈ natToDigitsAux fuel n, c.isDigit = true := by
  induction fuel with
  | zero => intro n h; omega
  | succ fuel ih =>
    intro n h
    by_cases hn : n < 10
    · rw [natToDigitsAux, if_pos hn]
      refine ⟨?_, by simp, ?_⟩
      · show natOfDigits ([] ++ [Nat.digitChar n]) = n
        rw [natOfDigits_append_digit, digitVal_digitChar n hn]
        simp [natOfDigits]
      · intro c hc
        rw [List.mem_singleton] at hc
        rw [hc]
        exact isDigit_digitChar n hn
    · rw [natToDigitsAux, if_neg hn]
      have hdiv : n / 10 < fuel := by omega
      obtain ⟨ih1, ih2, ih3⟩ := ih (n / 10) hdiv
      refine ⟨?_, by simp, ?_⟩
      · rw [natOfDigits_append_digit, ih1, digitVal_digitChar (n % 10) (by omega)]
        omega
      · intro c hc
        rw [List.mem_append] at hc
        rcases hc with hc | hc
        · exact ih3 c hc
        · rw [List.mem_singleton] at hc
          rw [hc]
          exact isDigit_digitChar (n % 10) (by omega)

theorem natOfDigits_natToDigits (n : Nat) : natOfDigits (natToDigits n) = n :=
  (natToDigitsAux_spec (n + 1) n (Nat.lt_succ_self n)).1

theorem natToDigits_ne_nil (n : Nat) : natToDigits n ≠ [] :=
  (natToDigitsAux_spec (n + 1) n (Nat.lt_succ_self n)).2.1

theorem natToDigits_all_digits (n : Nat) : ∀ c ∈ natToDigits n, c.isDigit = true :=
  (natToDigitsAux_spec (n + 1) n (Nat.lt_succ_self n)).2.2

theorem takeWhile_append_all (p : Char → Bool) (xs ys : Str)
    (h : ∀ c ∈ xs, p c = true) : (xs ++ ys).takeWhile p = xs ++ ys.takeWhile p := by
  induction xs with
  | nil => rfl
  | cons a t ih =>
    rw [List.cons_append, List.takeWhile_cons, if_pos (h a (List.mem_cons_self a t)),
      ih (fun c hc => h c (List.mem_cons_of_mem a hc))]
    rfl

theorem dropWhile_append_all (p : Char → Bool) (xs ys : Str)
    (h : ∀ c ∈ xs, p c = true) : (xs ++ ys).dropWhile p = ys.dropWhile p := by
  induction xs with
  | nil => rfl
  | cons a t ih =>
    rw [List.cons_append, List.dropWhile_cons, if_pos (h a (List.mem_cons_self a t))]
    exact ih (fun c hc => h c (List.mem_cons_of_mem a hc))

/-! ### The float format/parse round trip -/

theorem ws_of_digit (c : Char) (h : c.isDigit = true) : isPyWS c = false := by
  revert h
  unfold isPyWS
  by_cases h1 : c = ' '
  · subst h1; decide
  by_cases h2 : c = '\t'
  · subst h2; decide
  by_cases h3 : c = '\n'
  · subst h3; decide
  by_cases h4 : c = '\r'
  · subst h4; decide
  by_cases h5 : c = '\x0b'
  · subst h5; decide
  by_cases h6 : c = '\x0c'
  · subst h6; decide
  intro _
  simp [h1, h2, h3, h4, h5, h6]

theorem mem_of_head?_eq (l : Str) (c : Char) (h : l.head? = some c) : c ∈ l := by
  cases l with
  | nil => simp at h
  | cons a t =>
    simp only [List.head?_cons, Option.some.injEq] at h
    rw [← h]
    exact List.mem_cons_self a t

theorem mem_of_getLast?_eq (l : Str) (c : Char) (h : l.getLast? = some c) : c ∈ l := by
  rw [← List.head?_reverse] at h
  rw [← List.mem_reverse]
  exact mem_of_head?_eq _ _ h

theorem pyStrip_eq_self_of_all (l : Str) (h : ∀ c ∈ l, isPyWS c = false) : pyStrip l = l :=
  pyStrip_eq_self l (fun c hc => h c (mem_of_head?_eq _ _ hc))
    (fun c hc => h c (mem_of_getLast?_eq _ _ hc))

theorem parseFloatBody_digits (q r : Nat) (hr : r < 10) :
    pyParseFloatBody (natToDigits q ++ '.' :: [Nat.digitChar r])
      = some (mkRat ((10 * q + r : Nat) : Int) 10) := by
  have hdigs := natToDigits_all_digits q
  have hip : (natToDigits q ++ '.' :: [Nat.digitChar r]).takeWhile Char.isDigit
      = natToDigits q := by
    rw [takeWhile_append_all _ _ _ hdigs, List.takeWhile_cons, if_neg (by decide)]
    simp
  have hrest : (natToDigits q ++ '.' :: [Nat.digitChar r]).dropWhile Char.isDigit
      = '.' :: [Nat.digitChar r] := by
    rw [dropWhile_append_all _ _ _ hdigs, List.dropWhile_cons, if_neg (by decide)]
  have hfp : ([Nat.digitChar r]).takeWhile Char.isDigit = [Nat.digitChar r] := by
    rw [List.takeWhile_cons, if_pos (isDigit_digitChar r hr)]
    rfl
  have hrest3 : ([Nat.digitChar r]).dropWhile Char.isDigit = [] := by
    rw [List.dropWhile_cons, if_pos (isDigit_digitChar r hr)]
    rfl
  have hval : natOfDigits (natToDigits q ++ [Nat.digitChar r]) = 10 * q + r := by
    rw [natOfDigits_append_digit, natOfDigits_natToDigits, digitVal_digitChar r hr]
  have hdec : ∀ m : Int, decimalValue m 1 0 = mkRat m 10 := by
    intro m
    simp [decimalValue]
  rw [pyParseFloatBody]
  simp only [hip, hrest, hfp, hrest3, hval, List.length_singleton]
  simp [hdec]

theorem formatF1_no_ws (x : ℚ) : ∀ c ∈ formatF1 x, isPyWS c = false := by
  intro c hc
  unfold formatF1 at hc
  rw [List.mem_append, List.mem_append] at hc
  rcases hc with (hc | hc) | hc
  · by_cases hneg : roundTenTiesEven x < 0
    · rw [if_pos hneg, List.mem_singleton] at hc
      rw [hc]; rfl
    · rw [if_neg hneg] at hc
      simp at hc
  · exact ws_of_digit c (natToDigits_all_digits _ c hc)
  · rcases List.mem_cons.mp hc with hc | hc
    · rw [hc]; rfl
    · rw [List.mem_singleton] at hc
      rw [hc]
      exact ws_of_digit _ (isDigit_digitChar _ (Nat.mod_lt _ (by omega)))

theorem pyParseFloat_cons (s : Str) (c : Char) (rest : Str) (h : pyStrip s = c :: rest) :
    pyParseFloat s
      = (if c = '-' then (pyParseFloatBody rest).map (fun q => -q)
         else if c = '+' then pyParseFloatBody rest
         else pyParseFloatBody (c :: rest)) := by
  rw [pyParseFloat.eq_def, h]

/-- Parsing a one-decimal formatted value recovers exactly the rounded
number: `float(f"\x7bx:.1f\x7d")` is `round(10 x) / 10`. -/
theorem pyParseFloat_formatF1 (x : ℚ) :
    pyParseFloat (formatF1 x) = some (mkRat (roundTenTiesEven x) 10) := by
  have hstrip : pyStrip (formatF1 x) = formatF1 x :=
    pyStrip_eq_self_of_all _ (formatF1_no_ws x)
  have hbody := parseFloatBody_digits ((roundTenTiesEven x).natAbs / 10)
    ((roundTenTiesEven x).natAbs % 10) (Nat.mod_lt _ (by omega))
  have habs : (10 * ((roundTenTiesEven x).natAbs / 10) + (roundTenTiesEven x).natAbs % 10 : Nat)
      = (roundTenTiesEven x).natAbs := by omega
  rw [habs] at hbody
  obtain ⟨d0, dtail, hd⟩ := List.exists_cons_of_ne_nil (natToDigits_ne_nil
    ((roundTenTiesEven x).natAbs / 10))
  have hd0 : d0.isDigit = true := by
    apply natToDigits_all_digits
    rw [hd]
    exact List.mem_cons_self d0 dtail
  by_cases hneg : roundTenTiesEven x < 0
  · have hform : formatF1 x = '-' :: (natToDigits ((roundTenTiesEven x).natAbs / 10)
        ++ '.' :: [Nat.digitChar ((roundTenTiesEven x).natAbs % 10)]) := by
      show (if roundTenTiesEven x < 0 then ['-'] else [])
          ++ natToDigits ((roundTenTiesEven x).natAbs / 10)
          ++ '.' :: [Nat.digitChar ((roundTenTiesEven x).natAbs % 10)] = _
      rw [if_pos hneg]
      rfl
    rw [pyParseFloat_cons _ _ _ (hstrip.trans hform), if_pos rfl, hbody]
    show some (-(mkRat (((roundTenTiesEven x).natAbs : ℤ)) 10))
        = some (mkRat (roundTenTiesEven x) 10)
    congr 1
    have hni : roundTenTiesEven x = -(((roundTenTiesEven x).natAbs : ℤ)) := by omega
    have hniq : ((roundTenTiesEven x : ℤ) : ℚ) = -((((roundTenTiesEven x).natAbs : ℤ)) : ℚ) := by
      exact_mod_cast hni
    rw [Rat.mkRat_eq_div, Rat.mkRat_eq_div, hniq]
    ring
  · have hform : formatF1 x = natToDigits ((roundTenTiesEven x).natAbs / 10)
        ++ '.' :: [Nat.digitChar ((roundTenTiesEven x).natAbs % 10)] := by
      show (if roundTenTiesEven x < 0 then ['-'] else [])
          ++ natToDigits ((roundTenTiesEven x).natAbs / 10)
          ++ '.' :: [Nat.digitChar ((roundTenTiesEven x).natAbs % 10)] = _
      rw [if_neg hneg]
      rfl
    have hform2 : pyStrip (formatF1 x)
        = d0 :: (dtail ++ '.' :: [Nat.digitChar ((roundTenTiesEven x).natAbs % 10)]) := by
      rw [hstrip, hform, hd]
      rfl
    have hd0m : d0 ≠ '-' := by
      intro he
      rw [he] at hd0
      exact absurd hd0 (by decide)
    have hd0p : d0 ≠ '+' := by
      intro he
      rw [he] at hd0
      exact absurd hd0 (by decide)
    rw [pyParseFloat_cons _ _ _ hform2, if_neg hd0m, if_neg hd0p,
      show d0 :: (dtail ++ '.' :: [Nat.digitChar ((roundTenTiesEven x).natAbs % 10)])
          = natToDigits ((roundTenTiesEven x).natAbs / 10)
            ++ '.' :: [Nat.digitChar ((roundTenTiesEven x).natAbs % 10)] from by rw [hd]; rfl,
      hbody]
    congr 2
    omega

/-- Rounding to tenths cannot fall below an integer bound on `10 * x`. -/
theorem le_roundTenTiesEven (k : ℤ) (x : ℚ) (h : (k : ℚ) ≤ 10 * x) :
    k ≤ roundTenTiesEven x := by
  have hd : (0 : ℤ) < (x.den : ℤ) := by exact_mod_cast x.pos
  have hden : (0 : ℚ) < (x.den : ℚ) := by exact_mod_cast x.pos
  rw [← Rat.num_div_den x, ← mul_div_assoc] at h
  have h2 := (le_div_iff₀ hden).mp h
  have hnum : k * (x.den : ℤ) ≤ 10 * x.num := by exact_mod_cast h2
  have hf : k ≤ Int.fdiv (10 * x.num) (x.den : ℤ) := by
    rw [Int.fdiv_eq_ediv _ (le_of_lt hd)]
    exact (Int.le_ediv_iff_mul_le hd).mpr hnum
  simp only [roundTenTiesEven]
  split_ifs <;> omega

/-! ### Dict lemmas -/

/-- The keys of a record, in order. -/
def dictKeys (d : Dict) : List Str :=
  d.map Prod.fst

theorem dictGet?_insert_self (d : Dict) (k v : Str) :
    dictGet? (dictInsert d k v) k = some v := by
  induction d with
  | nil => simp [dictInsert, dictGet?]
  | cons kv d ih =>
    obtain ⟨k', v'⟩ := kv
    by_cases h : k' = k
    · rw [dictInsert, if_pos h, dictGet?, if_pos h]
    · rw [dictInsert, if_neg h, dictGet?, if_neg h]
      exact ih

theorem dictGet?_insert_ne (d : Dict) (k v k₁ : Str) (h : k₁ ≠ k) :
    dictGet? (dictInsert d k v) k₁ = dictGet? d k₁ := by
  induction d with
  | nil =>
    show dictGet? [(k, v)] k₁ = none
    rw [dictGet?, if_neg (fun he => h he.symm)]
    rfl
  | cons kv d ih =>
    obtain ⟨k', v'⟩ := kv
    by_cases hk : k' = k
    · rw [dictInsert, if_pos hk, dictGet?, dictGet?]
      have : k' ≠ k₁ := fun he => h (he.symm.trans hk)
      rw [if_neg this, if_neg this]
    · rw [dictInsert, if_neg hk, dictGet?, dictGet?]
      by_cases hk1 : k' = k₁
      · rw [if_pos hk1, if_pos hk1]
      · rw [if_neg hk1, if_neg hk1]
        exact ih

theorem dictInsert_of_not_mem (d : Dict) (k v : Str) (h : k ∉ dictKeys d) :
    dictInsert d k v = d ++ [(k, v)] := by
  induction d with
  | nil => rfl
  | cons kv d ih =>
    obtain ⟨k', v'⟩ := kv
    have hne : k' ≠ k := by
      intro he
      exact h (by simp [dictKeys, he])
    rw [dictInsert, if_neg hne, List.cons_append, ih (fun hm => h (by simp [dictKeys] at hm ⊢; exact Or.inr hm))]

theorem dictKeys_insert_sub (d : Dict) (k v : Str) :
    ∀ k₁ ∈ dictKeys (dictInsert d k v), k₁ ∈ dictKeys d ∨ k₁ = k := by
  induction d with
  | nil => simp [dictInsert, dictKeys]
  | cons kv d ih =>
    obtain ⟨k', v'⟩ := kv
    intro k₁ hk1
    by_cases hk : k' = k
    · rw [dictInsert, if_pos hk] at hk1
      simp [dictKeys] at hk1 ⊢
      tauto
    · rw [dictInsert, if_neg hk] at hk1
      simp [dictKeys] at hk1 ⊢
      rcases hk1 with h1 | h1
      · tauto
      · rcases ih k₁ (by simpa [dictKeys] using h1) with h2 | h2
        · exact Or.inl (Or.inr (by simpa [dictKeys] using h2))
        · exact Or.inr h2

theorem dictKeys_insert_nodup (d : Dict) (k v : Str) (h : (dictKeys d).Nodup) :
    (dictKeys (dictInsert d k v)).Nodup := by
  induction d with
  | nil => simp [dictInsert, dictKeys]
  | cons kv d ih =>
    obtain ⟨k', v'⟩ := kv
    rw [dictKeys, List.map_cons, List.nodup_cons] at h
    by_cases hk : k' = k
    · rw [dictInsert, if_pos hk, dictKeys, List.map_cons, List.nodup_cons]
      exact ⟨h.1, h.2⟩
    · rw [dictInsert, if_neg hk, dictKeys, List.map_cons, List.nodup_cons]
      refine ⟨?_, ih h.2⟩
      intro hmem
      rcases dictKeys_insert_sub d k v k' (by simpa [dictKeys] using hmem) with h1 | h1
      · exact h.1 (by simpa [dictKeys] using h1)
      · exact hk h1

theorem dictInsert_entries (d : Dict) (k v : Str) :
    ∀ kv ∈ dictInsert d k v, kv ∈ d ∨ kv = (k, v) ∨ (kv.1 = k ∧ kv.2 = v) := by
  induction d with
  | nil => simp [dictInsert]
  | cons kv₀ d ih =>
    obtain ⟨k', v'⟩ := kv₀
    intro kv hkv
    by_cases hk : k' = k
    · rw [dictInsert, if_pos hk] at hkv
      rcases List.mem_cons.mp hkv with h1 | h1
      · exact Or.inr (Or.inr (by rw [h1, hk]; exact ⟨rfl, rfl⟩))
      · exact Or.inl (List.mem_cons_of_mem _ h1)
    · rw [dictInsert, if_neg hk] at hkv
      rcases List.mem_cons.mp hkv with h1 | h1
      · exact Or.inl (h1 ▸ List.mem_cons_self _ _)
      · rcases ih kv h1 with h2 | h2
        · exact Or.inl (List.mem_cons_of_mem _ h2)
        · exact Or.inr h2

/-! ### splitFirstEq lemmas -/

theorem splitFirstEq_append (k v : Str) (h : '=' ∉ k) :
    splitFirstEq (k ++ '=' :: v) = some (k, v) := by
  induction k with
  | nil => simp [splitFirstEq]
  | cons c t ih =>
    have hc : c ≠ '=' := fun he => h (he ▸ List.mem_cons_self c t)
    rw [List.cons_append, splitFirstEq, if_neg hc,
      ih (fun hm => h (List.mem_cons_of_mem c hm))]
    rfl

theorem splitFirstEq_none (s : Str) (h : '=' ∉ s) : splitFirstEq s = none := by
  induction s with
  | nil => rfl
  | cons c t ih =>
    have hc : c ≠ '=' := fun he => h (he ▸ List.mem_cons_self c t)
    rw [splitFirstEq, if_neg hc, ih (fun hm => h (List.mem_cons_of_mem c hm))]
    rfl

theorem splitFirstEq_some (s : Str) (k v : Str) (h : splitFirstEq s = some (k, v)) :
    s = k ++ '=' :: v ∧ '=' ∉ k := by
  induction s generalizing k v with
  | nil => simp [splitFirstEq] at h
  | cons c t ih =>
    by_cases hc : c = '='
    · rw [splitFirstEq, if_pos hc] at h
      simp only [Option.some.injEq, Prod.mk.injEq] at h
      rw [← h.1, ← h.2, hc]
      exact ⟨rfl, by simp⟩
    · rw [splitFirstEq, if_neg hc] at h
      cases hsp : splitFirstEq t with
      | none => rw [hsp] at h; simp at h
      | some p =>
        obtain ⟨k', v'⟩ := p
        rw [hsp] at h
        simp only [Option.map_some', Option.some.injEq, Prod.mk.injEq] at h
        obtain ⟨ih1, ih2⟩ := ih k' v' hsp
        constructor
        · rw [← h.1, ← h.2, List.cons_append, ih1]
        · rw [← h.1]
          intro hm
          rcases List.mem_cons.mp hm with h1 | h1
          · exact hc h1.symm
          · exact ih2 h1

/-! ### splitLines lemmas -/

theorem splitLines_cons_line (l rest : Str) (h : '\n' ∉ l) :
    splitLines (l ++ '\n' :: rest) = l :: splitLines rest := by
  induction l with
  | nil => simp [splitLines]
  | cons c t ih =>
    have hc : c ≠ '\n' := fun he => h (he ▸ List.mem_cons_self c t)
    rw [List.cons_append, splitLines, if_neg hc,
      ih (fun hm => h (List.mem_cons_of_mem c hm))]

theorem splitLines_linesToFile (ls : List Str) (h : ∀ l ∈ ls, '\n' ∉ l) :
    splitLines (linesToFile ls) = ls := by
  induction ls with
  | nil => rfl
  | cons l rest ih =>
    have : linesToFile (l :: rest) = l ++ '\n' :: linesToFile rest := by
      simp [linesToFile]
    rw [this, splitLines_cons_line l _ (h l (List.mem_cons_self l rest)),
      ih (fun l' hl' => h l' (List.mem_cons_of_mem l hl'))]

theorem mem_splitLines_no_nl (s : Str) : ∀ l ∈ splitLines s, '\n' ∉ l := by
  induction s with
  | nil => simp [splitLines]
  | cons c t ih =>
    intro l hl
    by_cases hc : c = '\n'
    · rw [splitLines, if_pos hc] at hl
      rcases List.mem_cons.mp hl with h1 | h1
      · rw [h1]; simp
      · exact ih l h1
    · rw [splitLines, if_neg hc] at hl
      cases hsp : splitLines t with
      | nil =>
        rw [hsp] at hl
        rcases List.mem_cons.mp hl with h1 | h1
        · rw [h1]
          intro hm
          rcases List.mem_cons.mp hm with h2 | h2
          · exact hc h2.symm
          · simp at h2
        · simp at h1
      | cons l₀ ls₀ =>
        rw [hsp] at hl
        rcases List.mem_cons.mp hl with h1 | h1
        · rw [h1]
          intro hm
          rcases List.mem_cons.mp hm with h2 | h2
          · exact hc h2.symm
          · exact ih l₀ (hsp ▸ List.mem_cons_self l₀ ls₀) h2
        · exact ih l (hsp ▸ List.mem_cons_of_mem l₀ h1)

/-! ### Well-formed entries and the read/write round trip -/

/-- A record entry that survives serialization exactly: the key contains no
`'='` and no newline, the value no newline, and the serialized `key=value`
line carries no leading or trailing whitespace. -/
def WFEntry (kv : Str × Str) : Prop :=
  '=' ∉ kv.1 ∧ '\n' ∉ kv.1 ∧ '\n' ∉ kv.2 ∧ pyStrip (statusLine kv) = statusLine kv

instance : DecidablePred WFEntry := fun kv => by
  unfold WFEntry
  infer_instance

theorem WFEntry_no_nl (kv : Str × Str) (h : WFEntry kv) : '\n' ∉ statusLine kv := by
  obtain ⟨h1, h2, h3, h4⟩ := h
  unfold statusLine
  intro hm
  rw [List.mem_append] at hm
  rcases hm with hm | hm
  · exact h2 hm
  · rcases List.mem_cons.mp hm with hm | hm
    · exact absurd hm (by decide)
    · exact h3 hm

theorem parseStatusLine_statusLine (d : Dict) (kv : Str × Str) (h : WFEntry kv) :
    parseStatusLine d (statusLine kv) = dictInsert d kv.1 kv.2 := by
  obtain ⟨h1, _, _, h4⟩ := h
  unfold parseStatusLine
  rw [h4, statusLine, splitFirstEq_append kv.1 kv.2 h1]

theorem foldl_parse_write (d : Dict) : ∀ acc : Dict,
    (∀ kv ∈ d, WFEntry kv) → (dictKeys (acc ++ d)).Nodup →
    List.foldl parseStatusLine acc (d.map statusLine) = acc ++ d := by
  induction d with
  | nil =>
    intro acc _ _
    simp
  | cons kv rest ih =>
    intro acc hwf hnd
    rw [List.map_cons, List.foldl_cons,
      parseStatusLine_statusLine acc kv (hwf kv (List.mem_cons_self kv rest))]
    have hknotin : kv.1 ∉ dictKeys acc := by
      have hdj := List.disjoint_of_nodup_append (by simpa [dictKeys] using hnd)
      intro hm
      exact hdj hm (by simp)
    rw [dictInsert_of_not_mem acc kv.1 kv.2 hknotin]
    have hkv : (kv.1, kv.2) = kv := rfl
    rw [hkv]
    rw [ih (acc ++ [kv]) (fun kv₂ h₂ => hwf kv₂ (List.mem_cons_of_mem kv h₂))
      (by simpa [dictKeys] using hnd)]
    simp

/-- On a record whose entries are well formed and whose keys are distinct,
re-reading the file written by `write_status` recovers the record exactly. -/
theorem read_write_roundtrip (d : Dict) (hwf : ∀ kv ∈ d, WFEntry kv)
    (hnd : (dictKeys d).Nodup) : read_status (some (write_status d)) = d := by
  rw [read_status, write_status, splitLines_linesToFile _ ?hnl]
  case hnl =>
    intro l hl
    obtain ⟨kv, hkv, hlv⟩ := List.mem_map.mp hl
    rw [← hlv]
    exact WFEntry_no_nl kv (hwf kv hkv)
  exact foldl_parse_write d [] hwf (by simpa using hnd)

theorem parseStatusLine_wf (d : Dict) (line : Str) (hnl : '\n' ∉ line)
    (hwf : ∀ kv ∈ d, WFEntry kv) : ∀ kv ∈ parseStatusLine d line, WFEntry kv := by
  unfold parseStatusLine
  cases hsp : splitFirstEq (pyStrip line) with
  | none => simpa using hwf
  | some p =>
    obtain ⟨k, v⟩ := p
    intro kv hkv
    obtain ⟨hs, hkne⟩ := splitFirstEq_some _ _ _ hsp
    have hwfkv : WFEntry (k, v) := by
      refine ⟨hkne, ?_, ?_, ?_⟩
      · intro hm
        exact hnl (mem_pyStrip line (hs ▸ List.mem_append.mpr (Or.inl hm)))
      · intro hm
        exact hnl (mem_pyStrip line
          (hs ▸ List.mem_append.mpr (Or.inr (List.mem_cons_of_mem _ hm))))
      · show pyStrip (statusLine (k, v)) = statusLine (k, v)
        have hsl : statusLine (k, v) = pyStrip line := hs.symm
        rw [hsl]
        exact pyStrip_idem line
    rcases dictInsert_entries d k v kv hkv with h1 | h1 | h1
    · exact hwf kv h1
    · rw [h1]
      exact hwfkv
    · obtain ⟨ka, va⟩ := kv
      simp only at h1
      rw [h1.1, h1.2]
      exact hwfkv

theorem parseStatusLine_nodup (d : Dict) (line : Str) (h : (dictKeys d).Nodup) :
    (dictKeys (parseStatusLine d line)).Nodup := by
  unfold parseStatusLine
  cases hsp : splitFirstEq (pyStrip line) with
  | none => exact h
  | some p =>
    obtain ⟨k, v⟩ := p
    exact dictKeys_insert_nodup d k v h

theorem foldl_parse_inv (lines : List Str) : ∀ acc : Dict,
    (∀ l ∈ lines, '\n' ∉ l) →
    (∀ kv ∈ acc, WFEntry kv) → (dictKeys acc).Nodup →
    (∀ kv ∈ List.foldl parseStatusLine acc lines, WFEntry kv)
    ∧ (dictKeys (List.foldl parseStatusLine acc lines)).Nodup := by
  induction lines with
  | nil =>
    intro acc _ h1 h2
    exact ⟨h1, h2⟩
  | cons l rest ih =>
    intro acc hnl h1 h2
    rw [List.foldl_cons]
    exact ih (parseStatusLine acc l) (fun l₂ hl₂ => hnl l₂ (List.mem_cons_of_mem _ hl₂))
      (parseStatusLine_wf acc l (hnl l (List.mem_cons_self _ _)) h1)
      (parseStatusLine_nodup acc l h2)

/-- Every record delivered by `read_status` has well-formed entries. -/
theorem read_status_wf (file : Option Str) : ∀ kv ∈ read_status file, WFEntry kv := by
  cases file with
  | none => simp [read_status]
  | some s =>
    rw [read_status]
    exact (foldl_parse_inv (splitLines s) [] (mem_splitLines_no_nl s)
      (by simp) (by simp [dictKeys])).1

/-- Every record delivered by `read_status` has pairwise-distinct keys. -/
theorem read_status_nodup (file : Option Str) : (dictKeys (read_status file)).Nodup := by
  cases file with
  | none => simp [read_status, dictKeys]
  | some s =>
    rw [read_status]
    exact (foldl_parse_inv (splitLines s) [] (mem_splitLines_no_nl s)
      (by simp) (by simp [dictKeys])).2

/-! ### Substring lemmas -/

theorem pyContains_iff (needle hay : Str) : pyContains needle hay = true ↔ needle <:+: hay := by
  induction hay with
  | nil =>
    rw [pyContains]
    constructor
    · intro h
      rw [List.isEmpty_iff] at h
      rw [h]
    · intro h
      rw [List.isEmpty_iff]
      obtain ⟨sp, tp, hst⟩ := h
      simp only [List.append_eq_nil] at hst
      exact hst.1.2
  | cons c rest ih =>
    rw [pyContains, Bool.or_eq_true, ih, List.isPrefixOf_iff_prefix]
    constructor
    · rintro (h | h)
      · exact h.isInfix
      · exact List.infix_cons h
    · intro h
      obtain ⟨sp, tp, hst⟩ := h
      cases sp with
      | nil =>
        left
        exact ⟨tp, by simpa using hst⟩
      | cons a s₂ =>
        right
        rw [List.cons_append, List.cons_append] at hst
        injection hst with _ h2
        exact ⟨s₂, tp, h2⟩

theorem pyContains_trans (a b c : Str) (h1 : pyContains a b = true)
    (h2 : pyContains b c = true) : pyContains a c = true := by
  rw [pyContains_iff] at h1 h2 ⊢
  exact h1.trans h2

theorem pyContains_map (f : Char → Char) (n h : Str) (hc : pyContains n h = true) :
    pyContains (n.map f) (h.map f) = true := by
  rw [pyContains_iff] at hc ⊢
  obtain ⟨sp, tp, hst⟩ := hc
  refine ⟨sp.map f, tp.map f, ?_⟩
  rw [← hst]
  simp

/-- Any line matched by the case-sensitive `'Compiling Part'` test is also
matched by the `'part' in line.lower()` test: the first disjunct of the
classifier's rule 1 is redundant. -/
theorem compilingPart_imp_part (line : Str)
    (h : pyContains "Compiling Part".toList line = true) :
    pyContains "part".toList (pyLower line) = true := by
  apply pyContains_trans _ ("compiling part".toList) _ (by decide)
  have h2 := pyContains_map Char.toLower _ _ h
  have he : ("Compiling Part".toList).map Char.toLower = "compiling part".toList := by decide
  rw [he] at h2
  exact h2

/-- Any line matched by the case-sensitive `'Compiled'` test is also matched
by `'compiled' in line.lower()`: rule 3's second disjunct is redundant. -/
theorem Compiled_imp_compiled (line : Str)
    (h : pyContains "Compiled".toList line = true) :
    pyContains "compiled".toList (pyLower line) = true := by
  have h2 := pyContains_map Char.toLower _ _ h
  have he : ("Compiled".toList).map Char.toLower = "compiled".toList := by decide
  rw [he] at h2
  exact h2

/-! ### Per-rule record effects -/

theorem rule_part_get (st : Dict) (line lower k : Str)
    (h1 : k ≠ "STAGE".toList) (h2 : k ≠ "PART".toList) :
    dictGet? (rule_part st line lower) k = dictGet? st k := by
  unfold rule_part
  split
  · cases hf : firstPartToken line with
    | some w =>
      simp only [hf]
      rw [dictGet?_insert_ne _ _ _ _ h2, dictGet?_insert_ne _ _ _ _ h1]
    | none =>
      simp only [hf]
      rw [dictGet?_insert_ne _ _ _ _ h1]
  · rfl

theorem rule_part_stage (st : Dict) (line lower : Str)
    (h : pyContains "part".toList lower = true) :
    dictGet? (rule_part st line lower) "STAGE".toList = some "compiling".toList := by
  unfold rule_part
  rw [if_pos (by rw [h, Bool.or_true])]
  cases hf : firstPartToken line with
  | some w =>
    simp only [hf]
    rw [dictGet?_insert_ne _ _ _ _ (by decide), dictGet?_insert_self]
  | none =>
    simp only [hf]
    rw [dictGet?_insert_self]

theorem rule_part_part (st : Dict) (line lower w : Str)
    (h : pyContains "part".toList lower = true) (hf : firstPartToken line = some w) :
    dictGet? (rule_part st line lower) "PART".toList = some w := by
  unfold rule_part
  rw [if_pos (by rw [h, Bool.or_true])]
  simp only [hf]
  rw [dictGet?_insert_self]

theorem rule_part_noop (st : Dict) (line : Str)
    (h : pyContains "part".toList (pyLower line) = false) :
    rule_part st line (pyLower line) = st := by
  unfold rule_part
  rw [if_neg]
  rw [Bool.or_eq_true]
  rintro (hc | hc)
  · rw [compilingPart_imp_part line hc] at h
    exact Bool.true_eq_false.mp h
  · rw [hc] at h
    exact Bool.true_eq_false.mp h

theorem rule_constraints_get (st : Dict) (line lower k : Str)
    (h : k ≠ "CURRENT_CONSTRAINTS".toList) :
    dictGet? (rule_constraints st line lower) k = dictGet? st k := by
  unfold rule_constraints
  split
  · cases hf : findConstraints line with
    | some ds =>
      simp only [hf]
      rw [dictGet?_insert_ne _ _ _ _ h]
    | none => simp only [hf]
  · rfl

theorem rule_compiled_some_get (st st₂ : Dict) (line lower k : Str)
    (h : k ≠ "COMPLETED_PARTS".toList)
    (he : rule_compiled st line lower = some st₂) :
    dictGet? st₂ k = dictGet? st k := by
  unfold rule_compiled at he
  split at he
  · cases hp : pyParseInt (pyGetD st "COMPLETED_PARTS".toList "0".toList) with
    | some n =>
      rw [hp] at he
      simp only [Option.map_some'] at he
      injection he with he
      rw [← he, dictGet?_insert_ne _ _ _ _ h]
    | none =>
      rw [hp] at he
      simp at he
  · injection he with he
    rw [← he]

theorem rule_compiled_triggered (st : Dict) (line lower : Str) (n : Int)
    (ht : pyContains "compiled".toList lower = true)
    (hp : pyParseInt (pyGetD st "COMPLETED_PARTS".toList "0".toList) = some n) :
    rule_compiled st line lower
      = some (dictInsert st "COMPLETED_PARTS".toList (intToStr (n + 1))) := by
  unfold rule_compiled
  rw [if_pos (by rw [ht, Bool.true_or]), hp]
  rfl

theorem rule_compiled_not_triggered (st : Dict) (line : Str)
    (h : pyContains "compiled".toList (pyLower line) = false) :
    rule_compiled st line (pyLower line) = some st := by
  unfold rule_compiled
  rw [if_neg]
  rw [Bool.or_eq_true]
  rintro (hc | hc)
  · rw [hc] at h
    exact Bool.true_eq_false.mp h
  · rw [Compiled_imp_compiled line hc] at h
    exact Bool.true_eq_false.mp h

theorem rule_witness_get (st : Dict) (line k : Str)
    (h1 : k ≠ "STAGE".toList) (h2 : k ≠ "STEP".toList) :
    dictGet? (rule_witness st line) k = dictGet? st k := by
  unfold rule_witness
  split
  · rw [dictGet?_insert_ne _ _ _ _ h2, dictGet?_insert_ne _ _ _ _ h1]
  · rfl

theorem rule_witness_noop (st : Dict) (line : Str)
    (h : pyContains "Generating witness".toList line = false) :
    rule_witness st line = st := by
  unfold rule_witness
  rw [if_neg (by rw [h]; exact Bool.false_ne_true)]

theorem rule_zkey_get (st : Dict) (lower k : Str)
    (h1 : k ≠ "STAGE".toList) (h2 : k ≠ "STEP".toList) :
    dictGet? (rule_zkey st lower) k = dictGet? st k := by
  unfold rule_zkey
  split
  · rw [dictGet?_insert_ne _ _ _ _ h2, dictGet?_insert_ne _ _ _ _ h1]
  · rfl

theorem rule_zkey_noop (st : Dict) (lower : Str)
    (h : pyContains "zkey".toList lower = false) : rule_zkey st lower = st := by
  unfold rule_zkey
  rw [if_neg (by rw [h]; exact Bool.false_ne_true)]

theorem rule_proof_get (st : Dict) (lower k : Str)
    (h1 : k ≠ "STAGE".toList) (h2 : k ≠ "STEP".toList) :
    dictGet? (rule_proof st lower) k = dictGet? st k := by
  unfold rule_proof
  split
  · rw [dictGet?_insert_ne _ _ _ _ h2, dictGet?_insert_ne _ _ _ _ h1]
  · rfl

theorem rule_proof_noop (st : Dict) (lower : Str)
    (h : pyContains "proof".toList lower = false) : rule_proof st lower = st := by
  unfold rule_proof
  rw [if_neg (by rw [h]; exact Bool.false_ne_true)]

theorem rule_done_get (st : Dict) (line lower k : Str) (h1 : k ≠ "STAGE".toList) :
    dictGet? (rule_done st line lower) k = dictGet? st k := by
  unfold rule_done
  split
  · rw [dictGet?_insert_ne _ _ _ _ h1]
  · rfl

theorem rule_done_stage (st : Dict) (line lower : Str)
    (h : (pyContains "Done".toList line || pyContains "success".toList lower) = true) :
    dictGet? (rule_done st line lower) "STAGE".toList = some "complete".toList := by
  unfold rule_done
  rw [if_pos h, dictGet?_insert_self]

theorem rule_done_noop (st : Dict) (line lower : Str)
    (h1 : pyContains "Done".toList line = false)
    (h2 : pyContains "success".toList lower = false) :
    rule_done st line lower = st := by
  unfold rule_done
  rw [if_neg (by rw [h1, h2]; exact Bool.false_ne_true)]

/-! ### Whole-line classifier lemmas -/

theorem read_output_line_eq (st : Dict) (line : Str) :
    read_output_line st line
      = (rule_compiled (rule_constraints (rule_part st line (pyLower line)) line (pyLower line))
            line (pyLower line)).map
          (fun stm => rule_done (rule_proof (rule_zkey (rule_witness stm line) (pyLower line))
            (pyLower line)) line (pyLower line)) := rfl

theorem pyGetD_congr (d d₂ : Dict) (k df : Str) (h : dictGet? d₂ k = dictGet? d k) :
    pyGetD d₂ k df = pyGetD d k df := by
  unfold pyGetD
  rw [h]

/-- The classifier's condition for rule 1 is exactly the case-insensitive
substring test for `part`: the `'Compiling Part'` disjunct is subsumed. -/
theorem part_trigger_eq (line : Str) :
    (pyContains "Compiling Part".toList line || pyContains "part".toList (pyLower line))
      = pyContains "part".toList (pyLower line) := by
  cases h : pyContains "part".toList (pyLower line) with
  | true => rw [Bool.or_true]
  | false =>
    rw [Bool.or_false]
    cases hc : pyContains "Compiling Part".toList line with
    | false => rfl
    | true =>
      rw [compilingPart_imp_part line hc] at h
      exact absurd h (by simp)

theorem read_output_line_part_unchanged (st st' : Dict) (line : Str)
    (hf : pyContains "part".toList (pyLower line) = false)
    (h : read_output_line st line = some st') :
    dictGet? st' "PART".toList = dictGet? st "PART".toList := by
  rw [read_output_line_eq] at h
  obtain ⟨stm, hm, hs⟩ := Option.map_eq_some'.mp h
  rw [← hs, rule_done_get _ _ _ _ (by decide), rule_proof_get _ _ _ (by decide) (by decide),
    rule_zkey_get _ _ _ (by decide) (by decide), rule_witness_get _ _ _ (by decide) (by decide),
    rule_compiled_some_get _ _ _ _ _ (by decide) hm,
    rule_constraints_get _ _ _ _ (by decide), rule_part_noop st line hf]

theorem read_output_line_stage_compiling (st st' : Dict) (line : Str)
    (hp : pyContains "part".toList (pyLower line) = true)
    (hw : pyContains "Generating witness".toList line = false)
    (hz : pyContains "zkey".toList (pyLower line) = false)
    (hpr : pyContains "proof".toList (pyLower line) = false)
    (hd : pyContains "Done".toList line = false)
    (hs2 : pyContains "success".toList (pyLower line) = false)
    (h : read_output_line st line = some st') :
    dictGet? st' "STAGE".toList = some "compiling".toList := by
  rw [read_output_line_eq] at h
  obtain ⟨stm, hm, hs⟩ := Option.map_eq_some'.mp h
  rw [← hs, rule_done_noop _ _ _ hd hs2, rule_proof_noop _ _ hpr, rule_zkey_noop _ _ hz,
    rule_witness_noop _ _ hw, rule_compiled_some_get _ _ _ _ _ (by decide) hm,
    rule_constraints_get _ _ _ _ (by decide), rule_part_stage _ _ _ hp]

theorem read_output_line_part_set (st st' : Dict) (line w : Str)
    (hp : pyContains "part".toList (pyLower line) = true)
    (hf : firstPartToken line = some w)
    (h : read_output_line st line = some st') :
    dictGet? st' "PART".toList = some w := by
  rw [read_output_line_eq] at h
  obtain ⟨stm, hm, hs⟩ := Option.map_eq_some'.mp h
  rw [← hs, rule_done_get _ _ _ _ (by decide), rule_proof_get _ _ _ (by decide) (by decide),
    rule_zkey_get _ _ _ (by decide) (by decide), rule_witness_get _ _ _ (by decide) (by decide),
    rule_compiled_some_get _ _ _ _ _ (by decide) hm,
    rule_constraints_get _ _ _ _ (by decide), rule_part_part _ _ _ _ hp hf]

theorem read_output_line_stage_unchanged (st st' : Dict) (line : Str)
    (hp : pyContains "part".toList (pyLower line) = false)
    (hw : pyContains "Generating witness".toList line = false)
    (hz : pyContains "zkey".toList (pyLower line) = false)
    (hpr : pyContains "proof".toList (pyLower line) = false)
    (hd : pyContains "Done".toList line = false)
    (hs2 : pyContains "success".toList (pyLower line) = false)
    (h : read_output_line st line = some st') :
    dictGet? st' "STAGE".toList = dictGet? st "STAGE".toList := by
  rw [read_output_line_eq] at h
  obtain ⟨stm, hm, hs⟩ := Option.map_eq_some'.mp h
  rw [← hs, rule_done_noop _ _ _ hd hs2, rule_proof_noop _ _ hpr, rule_zkey_noop _ _ hz,
    rule_witness_noop _ _ hw, rule_compiled_some_get _ _ _ _ _ (by decide) hm,
    rule_constraints_get _ _ _ _ (by decide), rule_part_noop st line hp]

theorem read_output_line_compiled (st : Dict) (line : Str) (n : Int)
    (ht : pyContains "compiled".toList (pyLower line) = true)
    (hp : pyParseInt (pyGetD st "COMPLETED_PARTS".toList "0".toList) = some n) :
    ∃ st', read_output_line st line = some st'
      ∧ dictGet? st' "COMPLETED_PARTS".toList = some (intToStr (n + 1)) := by
  have hget : dictGet? (rule_constraints (rule_part st line (pyLower line)) line (pyLower line))
      "COMPLETED_PARTS".toList = dictGet? st "COMPLETED_PARTS".toList := by
    rw [rule_constraints_get _ _ _ _ (by decide), rule_part_get _ _ _ _ (by decide) (by decide)]
  have hp2 : pyParseInt (pyGetD (rule_constraints (rule_part st line (pyLower line)) line
      (pyLower line)) "COMPLETED_PARTS".toList "0".toList) = some n := by
    rw [pyGetD_congr _ _ _ _ hget]
    exact hp
  have hm := rule_compiled_triggered _ line (pyLower line) n ht hp2
  refine ⟨rule_done (rule_proof (rule_zkey (rule_witness
      (dictInsert (rule_constraints (rule_part st line (pyLower line)) line (pyLower line))
        "COMPLETED_PARTS".toList (intToStr (n + 1))) line) (pyLower line)) (pyLower line))
      line (pyLower line), ?_, ?_⟩
  · rw [read_output_line_eq, hm]
    rfl
  · rw [rule_done_get _ _ _ _ (by decide), rule_proof_get _ _ _ (by decide) (by decide),
      rule_zkey_get _ _ _ (by decide) (by decide), rule_witness_get _ _ _ (by decide) (by decide),
      dictGet?_insert_self]

/-! ### Claim theorems -/

/-- Claim C1, counterexample: a stored non-numeric `TOTAL_PARTS` aborts
`draw_compilation_progress`, and a stored non-numeric `PEAK_MEMORY` aborts
`draw_system_metrics` — the draws do not complete, contradicting the claim
that an unparseable stored value degrades to the default. -/
theorem draw_nonnumeric_aborts :
    draw_compilation_progress [("TOTAL_PARTS".toList, "abc".toList)] = none
    ∧ draw_system_metrics 0 [("PEAK_MEMORY".toList, "oops".toList)] = none :=
  ⟨by decide, by decide⟩

/-- Claim C1, amended: a numeric field that is ABSENT degrades to its defined
default (`TOTAL_PARTS` to 8, `COMPLETED_PARTS`/`START_TIME`/`PEAK_MEMORY` to
0) and the draws complete; an unparseable `CURRENT_CONSTRAINTS` merely skips
its display row (its parse is the one guarded by `try/except ValueError`);
only an unparseable stored value of the other four aborts a draw. -/
theorem numeric_fields_default_when_absent (st : Dict)
    (h1 : dictGet? st "TOTAL_PARTS".toList = none)
    (h2 : dictGet? st "COMPLETED_PARTS".toList = none)
    (h3 : dictGet? st "START_TIME".toList = none)
    (h4 : dictGet? st "PEAK_MEMORY".toList = none) :
    draw_compilation_progress st = some (8, 0, 0)
    ∧ pyParseFloat (pyGetD st "PEAK_MEMORY".toList "0".toList) = some 0
    ∧ (∀ mem : ℚ, (draw_system_metrics mem st).isSome = true)
    ∧ (pyParseInt (pyGetD st "CURRENT_CONSTRAINTS".toList "0".toList) = none →
        constraintsRow st = none) := by
  have t1 : pyGetD st "TOTAL_PARTS".toList "8".toList = "8".toList := by
    rw [pyGetD, h1]
    rfl
  have t2 : pyGetD st "COMPLETED_PARTS".toList "0".toList = "0".toList := by
    rw [pyGetD, h2]
    rfl
  have t3 : pyGetD st "START_TIME".toList "0".toList = "0".toList := by
    rw [pyGetD, h3]
    rfl
  have t4 : pyGetD st "PEAK_MEMORY".toList "0".toList = "0".toList := by
    rw [pyGetD, h4]
    rfl
  refine ⟨?_, ?_, ?_, ?_⟩
  · rw [draw_compilation_progress, t1, t2, t3]
    decide
  · rw [t4]
    decide
  · intro mem
    rw [draw_system_metrics, t4]
    have : pyParseFloat "0".toList = some 0 := by decide
    rw [this]
    rfl
  · intro h5
    rw [constraintsRow]
    split
    · rw [h5]
    · rfl

/-- Claim C1 witness: on the empty record every numeric field is absent, the
compilation-progress parse yields the defaults `(8, 0, 0)` and the
system-metrics draw completes. -/
theorem numeric_fields_default_witness :
    draw_compilation_progress ([] : Dict) = some (8, 0, 0)
    ∧ (draw_system_metrics (mkRat 5 2) ([] : Dict)).isSome = true :=
  ⟨(numeric_fields_default_when_absent [] rfl rfl rfl rfl).1,
   (numeric_fields_default_when_absent [] rfl rfl rfl rfl).2.2.1 (mkRat 5 2)⟩

/-- Claim C2, counterexample: the line `"all done"` contains `"done"` as a
case-insensitive substring, yet classification leaves the record unchanged —
`STAGE` stays `compiling`, not `complete` — because the code's test
`'Done' in line` is case-sensitive. -/
theorem done_lowercase_not_complete :
    pyContains "done".toList (pyLower "all done".toList) = true
    ∧ read_output_line [("STAGE".toList, "compiling".toList)] "all done".toList
        = some [("STAGE".toList, "compiling".toList)]
    ∧ dictGet? [("STAGE".toList, "compiling".toList)] "STAGE".toList
        ≠ some "complete".toList :=
  ⟨by decide, by decide, by decide⟩

/-- Claim C2, amended: every processed line that contains `"Done"`
case-sensitively, or `"success"` case-insensitively, ends with
`STAGE=complete` regardless of the prior record (the rule is the last one to
run and nothing after it touches `STAGE`). -/
theorem done_or_success_sets_complete (st : Dict) (line : Str) (st' : Dict)
    (ht : (pyContains "Done".toList line
        || pyContains "success".toList (pyLower line)) = true)
    (h : read_output_line st line = some st') :
    dictGet? st' "STAGE".toList = some "complete".toList := by
  rw [read_output_line_eq] at h
  obtain ⟨stm, hm, hs⟩ := Option.map_eq_some'.mp h
  rw [← hs]
  exact rule_done_stage _ _ _ ht

/-- Claim C2 witness: the line `"Done."` drives `STAGE` to `complete` from
the prior stage `compiling`. -/
theorem done_sets_complete_witness :
    dictGet? [("STAGE".toList, "complete".toList)] "STAGE".toList
      = some "complete".toList :=
  done_or_success_sets_complete [("STAGE".toList, "compiling".toList)] "Done.".toList
    [("STAGE".toList, "complete".toList)] (by decide) (by decide)

/-- Claim C3, counterexample: the line `"partial"` — which contains `"part"`
only as a proper substring, not as a bare word — still sets `STAGE=compiling`
(and even stores `PART=partial`), because the code's test is
`'part' in line.lower()`, a plain substring test. -/
theorem part_substring_sets_compiling :
    read_output_line [("STAGE".toList, "idle".toList)] "partial".toList
      = some [("STAGE".toList, "compiling".toList), ("PART".toList, "partial".toList)] := by
  decide

/-- Claim C3, amended: the rule-1 trigger is exactly the case-insensitive
substring test for `"part"` (the `'Compiling Part'` disjunct is subsumed, and
mere substrings such as `"partial"` also match); in the absence of the
later-stage rules, `STAGE` becomes `compiling` exactly when the trigger fires
(otherwise it is unchanged); `PART` is set to the first whitespace-delimited
token starting with `part`/`Part` exactly when the trigger fires; the line
`"Compiling Part 1A: building constraints"` yields `STAGE=compiling` and
`PART=Part`. -/
theorem part_rule_classification :
    (∀ line : Str, (pyContains "Compiling Part".toList line
        || pyContains "part".toList (pyLower line)) = pyContains "part".toList (pyLower line))
    ∧ (∀ st st' : Dict, ∀ line : Str, read_output_line st line = some st' →
        (pyContains "part".toList (pyLower line) = false →
          dictGet? st' "PART".toList = dictGet? st "PART".toList)
        ∧ (∀ w : Str, pyContains "part".toList (pyLower line) = true →
            firstPartToken line = some w → dictGet? st' "PART".toList = some w))
    ∧ (∀ st st' : Dict, ∀ line : Str, read_output_line st line = some st' →
        pyContains "Generating witness".toList line = false →
        pyContains "zkey".toList (pyLower line) = false →
        pyContains "proof".toList (pyLower line) = false →
        pyContains "Done".toList line = false →
        pyContains "success".toList (pyLower line) = false →
        dictGet? st' "STAGE".toList
          = (if pyContains "part".toList (pyLower line) = true
             then some "compiling".toList else dictGet? st "STAGE".toList))
    ∧ read_output_line [] "Compiling Part 1A: building constraints".toList
        = some [("STAGE".toList, "compiling".toList), ("PART".toList, "Part".toList)] := by
  refine ⟨part_trigger_eq, ?_, ?_, by decide⟩
  · intro st st' line h
    exact ⟨fun hf => read_output_line_part_unchanged st st' line hf h,
      fun w hp hf => read_output_line_part_set st st' line w hp hf h⟩
  · intro st st' line h hw hz hpr hd hs2
    cases hp : pyContains "part".toList (pyLower line) with
    | true =>
      rw [if_pos rfl]
      exact read_output_line_stage_compiling st st' line hp hw hz hpr hd hs2 h
    | false =>
      rw [if_neg Bool.false_ne_true]
      exact read_output_line_stage_unchanged st st' line hp hw hz hpr hd hs2 h

/-- Claim C4: `read_status` is total — a missing file yields the empty
record; a line whose stripped form has no `'='` is skipped while every other
line is still parsed (inserting such a line anywhere changes nothing); and a
`key=value` line splits at the first `'='` (the value may itself contain
`'='`). -/
theorem read_status_total_and_skips (bad : Str) (pre post : List Str)
    (hb1 : '\n' ∉ bad) (hb2 : '=' ∉ pyStrip bad)
    (hpre : ∀ l ∈ pre, '\n' ∉ l) (hpost : ∀ l ∈ post, '\n' ∉ l) :
    read_status none = []
    ∧ read_status (some (linesToFile (pre ++ bad :: post)))
        = read_status (some (linesToFile (pre ++ post)))
    ∧ ∀ k v : Str, '=' ∉ k → splitFirstEq (k ++ '=' :: v) = some (k, v) := by
  refine ⟨rfl, ?_, fun k v hk => splitFirstEq_append k v hk⟩
  have hall1 : ∀ l ∈ pre ++ bad :: post, '\n' ∉ l := by
    intro l hl
    rcases List.mem_append.mp hl with h1 | h1
    · exact hpre l h1
    · rcases List.mem_cons.mp h1 with h2 | h2
      · rw [h2]
        exact hb1
      · exact hpost l h2
  have hall2 : ∀ l ∈ pre ++ post, '\n' ∉ l := by
    intro l hl
    rcases List.mem_append.mp hl with h1 | h1
    · exact hpre l h1
    · exact hpost l h1
  rw [read_status, read_status, splitLines_linesToFile _ hall1, splitLines_linesToFile _ hall2,
    List.foldl_append, List.foldl_append, List.foldl_cons]
  have hskip : parseStatusLine (List.foldl parseStatusLine [] pre) bad
      = List.foldl parseStatusLine [] pre := by
    unfold parseStatusLine
    rw [splitFirstEq_none _ hb2]
  rw [hskip]

/-- Claim C4 witness: the malformed middle line `"junk"` of a three-line file
is skipped and the two `key=value` lines are still returned. -/
theorem read_status_skips_witness :
    read_status (some (linesToFile (["A=1".toList] ++ "junk".toList :: ["B=2".toList])))
      = read_status (some (linesToFile (["A=1".toList] ++ ["B=2".toList]))) :=
  (read_status_total_and_skips "junk".toList ["A=1".toList] ["B=2".toList]
    (by decide) (by decide) (by decide) (by decide)).2.1

/-- Claim C5, counterexample: two files that are valid by the claim's own
description — one `key=value` pair per line, values without `'='` or
newlines — for which `read_status` followed by `write_status` does not
reproduce the byte content: a duplicate key collapses to its last value, and
a trailing space in a value is stripped. -/
theorem read_write_not_roundtrip_cex :
    write_status (read_status (some "A=1\nA=2\n".toList)) ≠ "A=1\nA=2\n".toList
    ∧ write_status (read_status (some "k=v \n".toList)) ≠ "k=v \n".toList :=
  ⟨by decide, by decide⟩

/-- Claim C5, amended: for every valid `key=value` file whose keys are
pairwise distinct and whose lines carry no leading or trailing whitespace
(equivalently: the file written from a record of well-formed entries with
distinct keys, values free of `'='`), `read()` followed by `write()`
reproduces byte-identical content, keys in insertion order. -/
theorem read_write_roundtrip_valid (d : Dict)
    (hwf : ∀ kv ∈ d, WFEntry kv ∧ '=' ∉ kv.2)
    (hnd : (dictKeys d).Nodup) :
    write_status (read_status (some (write_status d))) = write_status d := by
  rw [read_write_roundtrip d (fun kv h => (hwf kv h).1) hnd]

/-- Claim C5 witness: a concrete two-entry record round-trips byte-identically. -/
theorem read_write_roundtrip_witness :
    write_status (read_status (some (write_status
        [("MODE".toList, "mini".toList), ("STAGE".toList, "compiling".toList)])))
      = write_status [("MODE".toList, "mini".toList), ("STAGE".toList, "compiling".toList)] :=
  read_write_roundtrip_valid
    [("MODE".toList, "mini".toList), ("STAGE".toList, "compiling".toList)]
    (by decide) (by decide)

/-- Claim C6, counterexample: for a value with trailing whitespace the claim
fails in the code — `update_status(K, "v ")` writes the line `K=v ` and the
next `read_status` strips it, so the read yields `"v"`, not `"v "`; likewise
a key with leading whitespace (`" K"`) is read back as `"K"`, so the lookup
of the updated key itself finds nothing. -/
theorem update_strips_whitespace_cex :
    dictGet? (read_status (some (update_status none "K".toList "v ".toList))) "K".toList
      = some "v".toList
    ∧ dictGet? (read_status (some (update_status none "K".toList "v ".toList))) "K".toList
      ≠ some "v ".toList
    ∧ dictGet? (read_status (some (update_status none " K".toList "v".toList))) " K".toList
      = none :=
  ⟨by decide, by decide, by decide⟩

/-- Claim C6, amended: `update_status(k, v)` followed by `read_status` yields
`v` for `k` and leaves every other key — including keys outside the
enumerated set — unchanged, for every storable key/value (no `'='` in the
key, no newlines, no leading/trailing whitespace around the serialized
`key=value` line); a key or value with surrounding whitespace is altered by
the stripping of the next read, as the counterexample shows. -/
theorem update_then_read (file : Option Str) (k v : Str) (hkv : WFEntry (k, v)) :
    dictGet? (read_status (some (update_status file k v))) k = some v
    ∧ ∀ k₁ : Str, k₁ ≠ k →
        dictGet? (read_status (some (update_status file k v))) k₁
          = dictGet? (read_status file) k₁ := by
  have hwf := read_status_wf file
  have hnd := read_status_nodup file
  have hwf2 : ∀ kv ∈ dictInsert (read_status file) k v, WFEntry kv := by
    intro kv hm
    rcases dictInsert_entries _ _ _ kv hm with h1 | h1 | h1
    · exact hwf kv h1
    · rw [h1]
      exact hkv
    · obtain ⟨ka, va⟩ := kv
      simp only at h1
      rw [h1.1, h1.2]
      exact hkv
  have hnd2 := dictKeys_insert_nodup _ k v hnd
  rw [update_status, read_write_roundtrip _ hwf2 hnd2]
  exact ⟨dictGet?_insert_self _ _ _, fun k₁ hk₁ => dictGet?_insert_ne _ _ _ _ hk₁⟩

/-- Claim C6 witness: updating `STAGE` on a one-entry file stores the new
value and preserves the unrelated (non-enumerated) key `MODE`. -/
theorem update_then_read_witness :
    dictGet? (read_status (some (update_status (some "MODE=mini\n".toList)
        "STAGE".toList "compiling".toList))) "STAGE".toList = some "compiling".toList
    ∧ dictGet? (read_status (some (update_status (some "MODE=mini\n".toList)
        "STAGE".toList "compiling".toList))) "MODE".toList
      = dictGet? (read_status (some "MODE=mini\n".toList)) "MODE".toList :=
  ⟨(update_then_read (some "MODE=mini\n".toList) "STAGE".toList "compiling".toList
      (by decide)).1,
   (update_then_read (some "MODE=mini\n".toList) "STAGE".toList "compiling".toList
      (by decide)).2 "MODE".toList (by decide)⟩

/-- Claim C7: every classified line containing `"compiled"` case-insensitively
increments `COMPLETED_PARTS` by exactly 1 via read-modify-write; in
particular the two consecutive lines `"Compiled part 1A"`, `"Compiled part
1B"` starting from `COMPLETED_PARTS=0` end with `COMPLETED_PARTS=2`. -/
theorem compiled_increments :
    (∀ st : Dict, ∀ line : Str, ∀ n : Int,
        pyContains "compiled".toList (pyLower line) = true →
        pyParseInt (pyGetD st "COMPLETED_PARTS".toList "0".toList) = some n →
        ∃ st', read_output_line st line = some st'
          ∧ dictGet? st' "COMPLETED_PARTS".toList = some (intToStr (n + 1)))
    ∧ (read_output_lines [("COMPLETED_PARTS".toList, "0".toList)]
          ["Compiled part 1A".toList, "Compiled part 1B".toList]).map
        (fun st => pyGetD st "COMPLETED_PARTS".toList "0".toList) = some "2".toList :=
  ⟨read_output_line_compiled, by decide⟩

/-- Claim C8: `PEAK_MEMORY` is monotonically non-decreasing under the
renderer's tracking — sampling `[2.0, 5.0, 3.0]` GB from a fresh record
leaves `PEAK_MEMORY=5.0`, and in general one `draw_system_metrics` step never
decreases either the displayed peak or the stored (one-decimal) peak, and
keeps the stored value a one-decimal number so steps chain. -/
theorem peak_memory_monotone :
    ((renderPeakSteps (init_status "mini".toList 0 8 [])
          [mkRat 2 1, mkRat 5 1, mkRat 3 1]).map
        (fun st => pyGetD st "PEAK_MEMORY".toList "0".toList) = some "5.0".toList)
    ∧ (∀ (st : Dict) (mem peak : ℚ) (k : ℤ),
        pyParseFloat (pyGetD st "PEAK_MEMORY".toList "0".toList) = some peak →
        peak = (k : ℚ) / 10 →
        ∃ shown : ℚ, ∃ st' : Dict,
          draw_system_metrics mem st = some (shown, st')
          ∧ peak ≤ shown
          ∧ ∃ peak' : ℚ, ∃ k' : ℤ,
              pyParseFloat (pyGetD st' "PEAK_MEMORY".toList "0".toList) = some peak'
              ∧ peak ≤ peak' ∧ peak' = (k' : ℚ) / 10) := by
  constructor
  · decide
  · intro st mem peak k hpk hk
    rw [draw_system_metrics, hpk]
    by_cases hlt : peak < mem
    · rw [Option.map_some', if_pos hlt]
      refine ⟨mem, dictInsert st "PEAK_MEMORY".toList (formatF1 mem), rfl,
        le_of_lt hlt, mkRat (roundTenTiesEven mem) 10, roundTenTiesEven mem, ?_, ?_, ?_⟩
      · have hget : pyGetD (dictInsert st "PEAK_MEMORY".toList (formatF1 mem))
            "PEAK_MEMORY".toList "0".toList = formatF1 mem := by
          rw [pyGetD, dictGet?_insert_self]
          rfl
        rw [hget]
        exact pyParseFloat_formatF1 mem
      · have h10 : (0 : ℚ) < 10 := by norm_num
        have h1 : (k : ℚ) / 10 < mem := hk ▸ hlt
        have h2 : (k : ℚ) < mem * 10 := (div_lt_iff₀ h10).mp h1
        have hkm : (k : ℚ) ≤ 10 * mem := by linarith
        have hkn := le_roundTenTiesEven k mem hkm
        have hc : (k : ℚ) ≤ ((roundTenTiesEven mem : ℤ) : ℚ) := by exact_mod_cast hkn
        rw [hk, Rat.mkRat_eq_div]
        gcongr
      · exact Rat.mkRat_eq_div _ _
    · rw [Option.map_some', if_neg hlt]
      exact ⟨peak, st, rfl, le_refl peak, peak, k, hpk, le_refl peak, hk⟩

/-- Claim C9: the progress bar for `current=3, total=8, width=40` fills
exactly 15 of the 40 cells, leaves 25 empty, and reports 37 percent computed
with floor division. -/
theorem draw_progress_bar_3_8_40 :
    draw_progress_bar 3 8 40
      = '[' :: (List.replicate 15 '█' ++ List.replicate 25 '░') ++ "]  37%".toList
    ∧ progressFilled 3 (8 : Int) 40 = 15
    ∧ progressPercent 3 (8 : Int) = 37 :=
  ⟨by decide, by decide, by decide⟩

/-- Claim C10: with `total = 0` the progress bar substitutes 1 before
dividing — the rendering equals the `total = 1` rendering for every `current`
and `width` (no division-by-zero is possible, the function is total), and the
reported percentage is then `current * 100`. -/
theorem draw_progress_bar_total_zero (current width : Int) :
    draw_progress_bar current 0 width = draw_progress_bar current 1 width
    ∧ progressPercent current 1 = current * 100 := by
  constructor
  · rw [draw_progress_bar, draw_progress_bar, if_pos rfl, if_neg (by norm_num)]
  · rw [progressPercent, Int.fdiv_eq_ediv _ (by norm_num), Int.ediv_one]

end Dashboard
